import Mathlib

/-!
Verification of the `htl` package: a parser for a simplified, S-expression
flavoured HTML variant, and a serializer turning parsed trees back into
strings.  The Go source drives the parse with "eat" functions that consume
one rune at a time and return the function that consumes the next rune
(`nil` signalling failure); here the three eaters (plus the comment eater)
become a four-valued `EaterTag` and a total step function, with `none`
playing the role of the nil sentinel.  Nodes are mutated through pointers
held on the parse stack in the source; here the stack holds node values,
`push` appends the fresh child to its parent exactly as the source does,
and `pop` writes the finished top of the stack back over the stale copy in
the parent's children (the write the source obtains for free by aliasing).
-/

namespace htl

/-- Maximum depth of nodes in the html tree (`maxStackDepth` in the source). -/
def maxStackDepth : Nat := 256

def openParenRune : Char := '('

def closeParenRune : Char := ')'

/-- The double-quote rune, U+0022. -/
def quoteRune : Char := Char.ofNat 34

/-- The backslash rune, U+005C. -/
def escapingRune : Char := Char.ofNat 92

def keywordStartRune : Char := ':'

def commentStartRune : Char := ';'

/-- The newline rune, U+000A. -/
def newLineRune : Char := Char.ofNat 10

/-- Go's `unicode.IsSpace`: the Unicode White_Space code points. -/
def isSpace (r : Char) : Bool :=
  let n := r.toNat
  (0x09 ≤ n && n ≤ 0x0d) || n == 0x20 || n == 0x85 || n == 0xa0 || n == 0x1680 ||
  (0x2000 ≤ n && n ≤ 0x200a) || n == 0x2028 || n == 0x2029 || n == 0x202f ||
  n == 0x205f || n == 0x3000

/-- Set of tags that look like `<img k1="v1"/>`, i.e. with no closing tag
(`degenerateTags` in the source, a constant map used only for membership). -/
def degenerateTags : List String := ["br", "hr", "link", "img", "meta"]

/-- The map `htmlEscapeRuneMap` together with the lookup-or-identity wrapper
`htmlEscapeRune` of the source (U+0027 is the apostrophe, U+0022 the double
quote). -/
def htmlEscapeRune (r : Char) : String :=
  if r = '<' then "&lt;"
  else if r = '>' then "&gt;"
  else if r = '&' then "&amp;"
  else if r = Char.ofNat 39 then "&apos;"
  else if r = Char.ofNat 34 then "&quot;"
  else String.singleton r

/-- Resolution of the character following a backslash inside a quoted string
(`backslashUnescapeThenHtmlEscape`): five named escapes produce control
characters (form feed U+000C, newline U+000A, carriage return U+000D, tab
U+0009, vertical tab U+000B); everything else, the backslash and the double
quote included, falls through to `htmlEscapeRune`. -/
def backslashUnescapeThenHtmlEscape (r : Char) : String :=
  if r = 'f' then String.singleton (Char.ofNat 12)
  else if r = 'n' then String.singleton (Char.ofNat 10)
  else if r = 'r' then String.singleton (Char.ofNat 13)
  else if r = 't' then String.singleton (Char.ofNat 9)
  else if r = 'v' then String.singleton (Char.ofNat 11)
  else htmlEscapeRune r

inductive NodeType where
  | ElementNode
  | TextNode
deriving DecidableEq, Repr

/-- The tree node of the source: a kind, a tag (holding the text payload for
text nodes), an attribute map and the ordered children.  The Go attribute map
is modelled as an association list with unique keys kept in insertion order;
assignment is `mapAssign` below, which replaces in place (last write wins). -/
inductive Node where
  | mk (kind : NodeType) (tag : String) (attr : List (String × String))
       (content : List Node)
deriving Repr

def Node.kind : Node → NodeType
  | .mk k _ _ _ => k

def Node.tag : Node → String
  | .mk _ t _ _ => t

def Node.attr : Node → List (String × String)
  | .mk _ _ a _ => a

def Node.content : Node → List Node
  | .mk _ _ _ c => c

def Node.withTag : Node → String → Node
  | .mk k _ a c, t => .mk k t a c

def Node.addChild : Node → Node → Node
  | .mk k t a c, n => .mk k t a (c ++ [n])

/-- Replace the stale copy of the just-popped child (appended by `push`, always
the last entry) by its finished value; this models the in-place mutation the
source performs through the shared pointer. -/
def Node.setLastChild : Node → Node → Node
  | .mk k t a c, n => .mk k t a (c.dropLast ++ [n])

/-- Go map assignment `attr[k] = v` on the association-list model. -/
def mapAssign : List (String × String) → String → String → List (String × String)
  | [], k, v => [(k, v)]
  | p :: rest, k, v => if p.1 = k then (k, v) :: rest else p :: mapAssign rest k v

/-- Go map lookup `attr[k]` (zero value `""` when absent). -/
def mapGet : List (String × String) → String → String
  | [], _ => ""
  | p :: rest, k => if p.1 = k then p.2 else mapGet rest k

def Node.assignAttr : Node → String → String → Node
  | .mk k t a c, key, v => .mk k t (mapAssign a key v) c

/-- `NewNode` of the source. -/
def NewNode (kind : NodeType) (tag : String) : Node := .mk kind tag [] []

inductive contextType where
  | contextDefault
  | contextTag
  | contextAfterTag
  | contextAttrKey
  | contextAfterAttrKey
  | contextAttrValue
  | contextContent
deriving DecidableEq, Repr

/-- The parser state.  The stack keeps its top at the head of the list (the
source keeps it at the end of a slice); the bottom is the synthetic root. -/
structure ParseState where
  context : contextType
  token : String
  key : String
  escapingBackslash : Bool
  stack : List Node
deriving Repr

/-- The four eat behaviours of the source (`eatAir`, `eatSymbol`, `eatString`,
`eatComment`); the source passes them around as function values. -/
inductive EaterTag where
  | air
  | symbol
  | str
  | comment
deriving DecidableEq, Repr

/-- The structured content of the two `fmt.Errorf` calls in `Parse`: an FSM
step failure carrying the offending rune, its position and the diagnostic
staged in the token buffer, or the end-of-input missing-closing-parens count. -/
inductive ParseError where
  | runeError (r : Char) (line column : Nat) (message : String)
  | missingClosers (missing : Nat)
deriving DecidableEq, Repr

/-- `ps.error(s)`: stage the diagnostic in the token buffer and return the nil
eater sentinel. -/
def ParseState.error (ps : ParseState) (s : String) : Option EaterTag × ParseState :=
  (none, { ps with token := s })

/-- Apply `f` to the node on top of the stack (the source mutates it through
`currentNode()`; the empty-stack case never arises during a parse). -/
def ParseState.modifyTop (ps : ParseState) (f : Node → Node) : ParseState :=
  match ps.stack with
  | [] => ps
  | n :: rest => { ps with stack := f n :: rest }

/-- `commit`: flush the token buffer into the tree as directed by the current
context (`flushToken` is inlined as the `token := ""` updates). -/
def ParseState.commit (ps : ParseState) : ParseState :=
  match ps.context with
  | .contextTag =>
      { ps.modifyTop (fun n => n.withTag ps.token) with token := "" }
  | .contextAttrKey =>
      { ps with key := ps.token, token := "" }
  | .contextAttrValue =>
      { ps.modifyTop (fun n => n.assignAttr ps.key ps.token) with key := "", token := "" }
  | .contextContent =>
      { ps.modifyTop (fun n => n.addChild (NewNode .TextNode ps.token)) with token := "" }
  | _ => ps

/-- `push`: refuse when the stack is at the depth cap, otherwise create an
empty-tagged element, link it as the last child of the stack top and push it,
switching to tag context with `eatSymbol` next. -/
def ParseState.push (ps : ParseState) : Option EaterTag × ParseState :=
  let newNode := NewNode .ElementNode ""
  if maxStackDepth ≤ ps.stack.length then ps.error "tree too deep"
  else
    let stackLinked : List Node :=
      match ps.stack with
      | [] => [newNode]
      | parent :: rest => newNode :: parent.addChild newNode :: rest
    (some .symbol, { ps with stack := stackLinked, context := .contextTag })

/-- `pop`: with more than the synthetic root on the stack, drop the top frame
(writing its finished value back into the parent) and reset to the default
context; otherwise fail. -/
def ParseState.pop (ps : ParseState) : Option EaterTag × ParseState :=
  match ps.stack with
  | top :: parent :: rest =>
      (some .air, { ps with stack := parent.setLastChild top :: rest,
                            context := .contextDefault })
  | _ => ps.error "unexpected closing paren"

/-- `eatAir`: consume space between tokens. -/
def eatAir (r : Char) (ps : ParseState) : Option EaterTag × ParseState :=
  if r = openParenRune then
    if ps.context = .contextAfterAttrKey then ps.error "unexpected open paren"
    else ps.push
  else if r = closeParenRune then
    if ps.context = .contextAfterAttrKey then ps.error "unexpected close paren"
    else ps.pop
  else if r = quoteRune then
    if ps.context = .contextAfterAttrKey then
      (some .str, { ps with context := .contextAttrValue })
    else
      (some .str, { ps with context := .contextContent })
  else if r = commentStartRune then
    (some .comment, ps)
  else if r = keywordStartRune then
    if ps.context = .contextAfterTag then
      (some .symbol, { ps with context := .contextAttrKey })
    else ps.error "unexpect character"
  else if r = escapingRune then
    ps.error "backslash-escaping not allowed here"
  else if isSpace r then
    (some .air, ps)
  else
    let psToken := { ps with token := ps.token.push r }
    if ps.context = .contextAfterAttrKey then
      (some .symbol, { psToken with context := .contextAttrValue })
    else
      (some .symbol, { psToken with context := .contextContent })

/-- `eatSymbol`: accumulate an unquoted token. -/
def eatSymbol (r : Char) (ps : ParseState) : Option EaterTag × ParseState :=
  if r = openParenRune then
    if ps.context = .contextAttrKey then ps.error "unexpected open paren"
    else ps.commit.push
  else if r = closeParenRune then
    if ps.context = .contextAttrKey then ps.error "unexpected close paren"
    else ps.commit.pop
  else if r = quoteRune then
    let ps := ps.commit
    if ps.context = .contextAttrKey then
      (some .str, { ps with context := .contextAttrValue })
    else
      (some .str, { ps with context := .contextContent })
  else if r = escapingRune then
    ps.error "backslash-escaping is not allowed here"
  else if isSpace r then
    let ps := ps.commit
    if ps.context = .contextAttrKey then
      (some .air, { ps with context := .contextAfterAttrKey })
    else
      (some .air, { ps with context := .contextAfterTag })
  else
    (some .symbol, { ps with token := ps.token.push r })

/-- `eatString`: consume the inside of a double-quoted literal. -/
def eatString (r : Char) (ps : ParseState) : Option EaterTag × ParseState :=
  if ps.escapingBackslash then
    (some .str, { ps with escapingBackslash := false,
                          token := ps.token ++ backslashUnescapeThenHtmlEscape r })
  else if r = quoteRune then
    let ps := ps.commit
    if ps.context = .contextAttrValue then
      (some .air, { ps with context := .contextAfterTag })
    else
      (some .air, { ps with context := .contextDefault })
  else if r = escapingRune then
    (some .str, { ps with escapingBackslash := true })
  else
    (some .str, { ps with token := ps.token ++ htmlEscapeRune r })

/-- `eatComment`: discard up to and including the next newline. -/
def eatComment (r : Char) (ps : ParseState) : Option EaterTag × ParseState :=
  if r = newLineRune then (some .air, ps) else (some .comment, ps)

/-- Dispatch on the current eat behaviour (the source calls the function value
directly). -/
def eatStep : EaterTag → Char → ParseState → Option EaterTag × ParseState
  | .air, r, ps => eatAir r ps
  | .symbol, r, ps => eatSymbol r ps
  | .str, r, ps => eatString r ps
  | .comment, r, ps => eatComment r ps

/-- The rune loop of `Parse`: feed each rune to the current eater, maintain the
1-based line and the column counters (updated before the failure check, as in
the source), and abort on the nil sentinel. -/
def parseLoop : List Char → EaterTag → ParseState → Nat → Nat →
    Except ParseError ParseState
  | [], _, ps, _, _ => .ok ps
  | r :: rest, eater, ps, line, column =>
    let step := eatStep eater r ps
    let lineNumber := if r = newLineRune then line + 1 else line
    let columnNumber := if r = newLineRune then 0 else column + 1
    match step.1 with
    | none => .error (.runeError r lineNumber columnNumber step.2.token)
    | some next => parseLoop rest next step.2 lineNumber columnNumber

/-- The initial parse state: default context, empty buffers, the synthetic
root alone on the stack. -/
def initState : ParseState :=
  { context := .contextDefault, token := "", key := "", escapingBackslash := false,
    stack := [NewNode .ElementNode ""] }

/-- `Parse` of the source: empty input is a degenerate success with no node;
otherwise run the rune loop from `eatAir`, fail when more than the root
remains on the stack, and return the bottom of the stack (the root, the last
entry in this head-is-top representation) on success. -/
def Parse (rawInput : String) : Except ParseError (Option Node) :=
  if rawInput = "" then .ok none
  else
    match parseLoop rawInput.data .air initState 1 0 with
    | .error e => .error e
    | .ok psFinal =>
      if 1 < psFinal.stack.length then
        .error (.missingClosers (psFinal.stack.length - 1))
      else
        .ok psFinal.stack.getLast?

/-- Lexicographic at-most comparison of code-point sequences. -/
def charListLe : List Char → List Char → Bool
  | [], _ => true
  | _ :: _, [] => false
  | a :: as, b :: bs =>
    if a.toNat = b.toNat then charListLe as bs
    else decide (a.toNat < b.toNat)

/-- Go's string comparison `a <= b`: Go compares the UTF-8 bytes
lexicographically, which coincides with code-point lexicographic order because
UTF-8 encoding preserves it. -/
def stringLe (a b : String) : Bool := charListLe a.data b.data

/-- The attribute keys in ascending order: the source collects the map's keys
and sorts them with `sort.Sort` under strict string less-than; on the unique
keys of a map this coincides with insertion sort under `stringLe`. -/
def sortedAttrKeys (attr : List (String × String)) : List String :=
  List.insertionSort (fun a b => stringLe a b = true) (attr.map Prod.fst)

/-- The attribute segment of an opening tag: fold `" key=\"value\""` over the
sorted keys, starting from the given prefix of the opening tag. -/
def attrsSegment (attr : List (String × String)) (s0 : String) : String :=
  (sortedAttrKeys attr).foldl
    (fun s k => s ++ " " ++ k ++ "=" ++ String.singleton quoteRune
                  ++ mapGet attr k ++ String.singleton quoteRune) s0

mutual
/-- The serializer (method `String` on `*Node` in the source, renamed because
that name would shadow the `String` type inside the `Node` namespace): text
nodes render their payload (`_` becoming `&nbsp;`), empty-tagged elements
render their children with no wrapping markup, and tagged elements render the
tag, the attributes in sorted key order, then either `/>` (childless void
tags), `></tag>` (childless non-void tags) or the children between `>` and
`</tag>`.  The nil-receiver case lives in `render` below. -/
def Node.render : Node → String
  | .mk kind tag attr content =>
    if kind = .TextNode then
      if tag = "_" then "&nbsp;" else tag
    else if tag = "" then
      Node.renderList content
    else
      let s := attrsSegment attr ("<" ++ tag)
      match content with
      | [] =>
        if degenerateTags.contains tag then s ++ "/>"
        else s ++ "></" ++ tag ++ ">"
      | _ => s ++ ">" ++ Node.renderList content ++ "</" ++ tag ++ ">"

/-- Concatenation of the renderings of a list of children. -/
def Node.renderList : List Node → String
  | [] => ""
  | c :: rest => Node.render c ++ Node.renderList rest
end

/-- The nil-receiver guard of the serializer: an absent tree renders as the
empty string. -/
def render : Option Node → String
  | none => ""
  | some t => t.render

/-- Composition used by the source's tests: parse, then render the resulting
tree, a parse error yielding the rendering of the absent tree. -/
def parseThenRender (input : String) : String :=
  match Parse input with
  | .error _ => render none
  | .ok t => render t

/-! Helper lemmas: the string comparison is a decidable total order. -/

theorem charToNat_inj {a b : Char} (h : a.toNat = b.toNat) : a = b := by
  have h1 := Char.ofNat_toNat a
  have h2 := Char.ofNat_toNat b
  rw [← h1, ← h2, h]

theorem charListLe_total : ∀ as bs : List Char,
    charListLe as bs = true ∨ charListLe bs as = true
  | [], _ => Or.inl rfl
  | _ :: _, [] => Or.inr rfl
  | a :: as, b :: bs => by
    by_cases h : a.toNat = b.toNat
    · rcases charListLe_total as bs with ih | ih
      · left; simpa [charListLe, h] using ih
      · right; simpa [charListLe, h.symm] using ih
    · by_cases hlt : a.toNat < b.toNat
      · left; simp [charListLe, h, hlt]
      · right
        have hgt : b.toNat < a.toNat := by omega
        simp [charListLe, Ne.symm h, hgt]

theorem charListLe_trans : ∀ as bs cs : List Char, charListLe as bs = true →
    charListLe bs cs = true → charListLe as cs = true
  | [], _, _, _, _ => rfl
  | _ :: _, [], _, h1, _ => by simp [charListLe] at h1
  | _ :: _, _ :: _, [], _, h2 => by simp [charListLe] at h2
  | a :: as, b :: bs, c :: cs, h1, h2 => by
    by_cases hab : a.toNat = b.toNat
    · by_cases hbc : b.toNat = c.toNat
      · have hac : a.toNat = c.toNat := by omega
        have ih := charListLe_trans as bs cs (by simpa [charListLe, hab] using h1)
          (by simpa [charListLe, hbc] using h2)
        simpa [charListLe, hac] using ih
      · have hlt : b.toNat < c.toNat := by simpa [charListLe, hbc] using h2
        have hac : a.toNat < c.toNat := by omega
        simp [charListLe, Nat.ne_of_lt hac, hac]
    · have hlt1 : a.toNat < b.toNat := by simpa [charListLe, hab] using h1
      by_cases hbc : b.toNat = c.toNat
      · have hac : a.toNat < c.toNat := by omega
        simp [charListLe, Nat.ne_of_lt hac, hac]
      · have hlt2 : b.toNat < c.toNat := by simpa [charListLe, hbc] using h2
        have hac : a.toNat < c.toNat := by omega
        simp [charListLe, Nat.ne_of_lt hac, hac]

theorem charListLe_antisymm : ∀ as bs : List Char, charListLe as bs = true →
    charListLe bs as = true → as = bs
  | [], [], _, _ => rfl
  | [], _ :: _, _, h2 => by simp [charListLe] at h2
  | _ :: _, [], h1, _ => by simp [charListLe] at h1
  | a :: as, b :: bs, h1, h2 => by
    by_cases hab : a.toNat = b.toNat
    · have hchar : a = b := charToNat_inj hab
      have ih := charListLe_antisymm as bs (by simpa [charListLe, hab] using h1)
        (by simpa [charListLe, hab.symm] using h2)
      rw [hchar, ih]
    · have hlt1 : a.toNat < b.toNat := by simpa [charListLe, hab] using h1
      have hlt2 : b.toNat < a.toNat := by simpa [charListLe, Ne.symm hab] using h2
      omega

instance : IsTotal String (fun a b => stringLe a b = true) :=
  ⟨fun a b => charListLe_total a.data b.data⟩

instance : IsTrans String (fun a b => stringLe a b = true) :=
  ⟨fun _ _ _ h1 h2 => charListLe_trans _ _ _ h1 h2⟩

instance : IsAntisymm String (fun a b => stringLe a b = true) :=
  ⟨fun a b h1 h2 => by
    have hdata := charListLe_antisymm _ _ h1 h2
    exact congrArg String.mk hdata⟩

theorem sortedAttrKeys_sorted (attr : List (String × String)) :
    List.Sorted (fun a b => stringLe a b = true) (sortedAttrKeys attr) :=
  List.sorted_insertionSort _ _

theorem sortedAttrKeys_perm (attr : List (String × String)) :
    List.Perm (sortedAttrKeys attr) (attr.map Prod.fst) :=
  List.perm_insertionSort _ _

theorem sortedAttrKeys_perm_eq {a1 a2 : List (String × String)}
    (h : List.Perm (a1.map Prod.fst) (a2.map Prod.fst)) :
    sortedAttrKeys a1 = sortedAttrKeys a2 :=
  List.eq_of_perm_of_sorted
    ((sortedAttrKeys_perm a1).trans (h.trans (sortedAttrKeys_perm a2).symm))
    (sortedAttrKeys_sorted a1) (sortedAttrKeys_sorted a2)

/-! Helper lemmas: tokens and the stack under the FSM steps. -/

theorem string_push_ne_self (s : String) (c : Char) : ¬ s.push c = s := by
  intro h
  have hlen := congrArg String.length h
  simp [String.length_push] at hlen

theorem string_push_ne_empty (s : String) (c : Char) : ¬ s.push c = "" := by
  intro h
  have hlen := congrArg String.length h
  simp [String.length_push] at hlen

theorem modifyTop_stack_length (ps : ParseState) (f : Node → Node) :
    (ps.modifyTop f).stack.length = ps.stack.length := by
  unfold ParseState.modifyTop
  cases hs : ps.stack <;> simp [hs]

theorem commit_stack_length (ps : ParseState) :
    ps.commit.stack.length = ps.stack.length := by
  unfold ParseState.commit
  cases ps.context <;> simp [modifyTop_stack_length]

theorem commit_token (ps : ParseState) :
    ps.commit.token = "" ∨ ps.commit.token = ps.token := by
  unfold ParseState.commit
  cases ps.context <;> simp

theorem push_at_cap (ps : ParseState) (h : maxStackDepth ≤ ps.stack.length) :
    ps.push = ps.error "tree too deep" := by
  simp [ParseState.push, h]

theorem push_below_cap (ps : ParseState) (h : ps.stack.length < maxStackDepth) :
    ps.push.1 = some .symbol ∧ ps.push.2.stack.length = ps.stack.length + 1 ∧
    ∀ parent rest, ps.stack = parent :: rest →
      ps.push.2.stack =
        NewNode .ElementNode "" :: parent.addChild (NewNode .ElementNode "") :: rest := by
  have hn : ¬ maxStackDepth ≤ ps.stack.length := Nat.not_le.mpr h
  refine ⟨by simp [ParseState.push, hn], ?_, ?_⟩
  · simp only [ParseState.push, hn]
    cases hs : ps.stack <;> simp [hs]
  · intro parent rest hs
    have hn2 : ¬ maxStackDepth ≤ rest.length + 1 := by
      rw [hs] at hn; simpa using hn
    simp [ParseState.push, hn2, hs]

theorem push_stack_length_le (ps : ParseState) (h : ps.stack.length ≤ maxStackDepth) :
    ps.push.2.stack.length ≤ maxStackDepth := by
  by_cases hfull : maxStackDepth ≤ ps.stack.length
  · rw [push_at_cap ps hfull]
    simpa [ParseState.error] using h
  · have hlt : ps.stack.length < maxStackDepth := by omega
    have := (push_below_cap ps hlt).2.1
    omega

theorem push_token (ps : ParseState) :
    ps.push.1 = none ∨ ps.push.2.token = ps.token := by
  by_cases hfull : maxStackDepth ≤ ps.stack.length
  · left; rw [push_at_cap ps hfull]; rfl
  · right
    simp only [ParseState.push, hfull]
    cases hs : ps.stack <;> simp [hs]

theorem pop_stack_length_le (ps : ParseState) :
    ps.pop.2.stack.length ≤ ps.stack.length := by
  unfold ParseState.pop
  rcases hs : ps.stack with _ | ⟨top, _ | ⟨parent, rest⟩⟩ <;>
    simp [hs, ParseState.error]

theorem pop_token (ps : ParseState) :
    ps.pop.1 = none ∨ ps.pop.2.token = ps.token := by
  unfold ParseState.pop
  rcases hs : ps.stack with _ | ⟨top, _ | ⟨parent, rest⟩⟩ <;>
    simp [hs, ParseState.error]

theorem pop_at_root (ps : ParseState) (h : ps.stack.length ≤ 1) :
    ps.pop = ps.error "unexpected closing paren" := by
  unfold ParseState.pop
  rcases hs : ps.stack with _ | ⟨top, _ | ⟨parent, rest⟩⟩
  · rfl
  · rfl
  · rw [hs] at h
    simp at h

/-! Helper lemmas: the three interesting eat behaviours, rune by rune. -/

theorem htmlEscapeRune_other (r : Char) (h1 : ¬ r = '<') (h2 : ¬ r = '>')
    (h3 : ¬ r = '&') (h4 : ¬ r = Char.ofNat 39) (h5 : ¬ r = Char.ofNat 34) :
    htmlEscapeRune r = String.singleton r := by
  unfold htmlEscapeRune
  rw [if_neg h1, if_neg h2, if_neg h3, if_neg h4, if_neg h5]

theorem backslashUnescape_other (r : Char) (h1 : ¬ r = 'f') (h2 : ¬ r = 'n')
    (h3 : ¬ r = 'r') (h4 : ¬ r = 't') (h5 : ¬ r = 'v') :
    backslashUnescapeThenHtmlEscape r = htmlEscapeRune r := by
  unfold backslashUnescapeThenHtmlEscape
  rw [if_neg h1, if_neg h2, if_neg h3, if_neg h4, if_neg h5]

theorem eatString_ordinary (r : Char) (ps : ParseState)
    (h1 : ps.escapingBackslash = false) (h2 : ¬ r = quoteRune) (h3 : ¬ r = escapingRune) :
    eatString r ps = (some .str, { ps with token := ps.token ++ htmlEscapeRune r }) := by
  unfold eatString
  rw [if_neg (by simp [h1]), if_neg h2, if_neg h3]

theorem eatString_escaped (r : Char) (ps : ParseState) (h : ps.escapingBackslash = true) :
    eatString r ps = (some .str, { ps with escapingBackslash := false,
                                           token := ps.token ++ backslashUnescapeThenHtmlEscape r }) := by
  unfold eatString
  rw [if_pos (by simp [h])]

theorem eatAir_default (r : Char) (ps : ParseState) (h1 : ¬ r = openParenRune)
    (h2 : ¬ r = closeParenRune) (h3 : ¬ r = quoteRune) (h4 : ¬ r = commentStartRune)
    (h5 : ¬ r = keywordStartRune) (h6 : ¬ r = escapingRune) (h7 : isSpace r = false) :
    eatAir r ps = (some .symbol,
      { ps with token := ps.token.push r,
                context := (if ps.context = .contextAfterAttrKey then
                              contextType.contextAttrValue
                            else contextType.contextContent) }) := by
  unfold eatAir
  rw [if_neg h1, if_neg h2, if_neg h3, if_neg h4, if_neg h5, if_neg h6,
      if_neg (by simp [h7])]
  by_cases hc : ps.context = .contextAfterAttrKey <;> simp [hc]

theorem eatSymbol_default (r : Char) (ps : ParseState) (h1 : ¬ r = openParenRune)
    (h2 : ¬ r = closeParenRune) (h3 : ¬ r = quoteRune) (h4 : ¬ r = escapingRune)
    (h5 : isSpace r = false) :
    eatSymbol r ps = (some .symbol, { ps with token := ps.token.push r }) := by
  unfold eatSymbol
  rw [if_neg h1, if_neg h2, if_neg h3, if_neg h4, if_neg (by simp [h5])]

theorem eatSymbol_token_cases (r : Char) (ps : ParseState)
    (hr : r = openParenRune ∨ r = closeParenRune ∨ r = quoteRune ∨ r = escapingRune ∨
          isSpace r = true) :
    (eatSymbol r ps).1 = none ∨ (eatSymbol r ps).2.token = "" ∨
      (eatSymbol r ps).2.token = ps.token := by
  rcases hr with h | h | h | h | h
  · subst h
    unfold eatSymbol
    rw [if_pos rfl]
    by_cases hctx : ps.context = .contextAttrKey
    · rw [if_pos hctx]; left; rfl
    · rw [if_neg hctx]
      rcases push_token ps.commit with hp | hp
      · left; exact hp
      · rcases commit_token ps with hc | hc
        · right; left; rw [hp, hc]
        · right; right; rw [hp, hc]
  · subst h
    unfold eatSymbol
    rw [if_neg (by decide), if_pos rfl]
    by_cases hctx : ps.context = .contextAttrKey
    · rw [if_pos hctx]; left; rfl
    · rw [if_neg hctx]
      rcases pop_token ps.commit with hp | hp
      · left; exact hp
      · rcases commit_token ps with hc | hc
        · right; left; rw [hp, hc]
        · right; right; rw [hp, hc]
  · subst h
    unfold eatSymbol
    rw [if_neg (by decide), if_neg (by decide), if_pos rfl]
    rcases commit_token ps with hc | hc
    · right; left
      simp only []
      split <;> simpa using hc
    · right; right
      simp only []
      split <;> simpa using hc
  · subst h
    unfold eatSymbol
    rw [if_neg (by decide), if_neg (by decide), if_neg (by decide), if_pos rfl]
    left; rfl
  · have n1 : ¬ r = openParenRune := by
      intro hh; rw [hh] at h; exact absurd h (by decide)
    have n2 : ¬ r = closeParenRune := by
      intro hh; rw [hh] at h; exact absurd h (by decide)
    have n3 : ¬ r = quoteRune := by
      intro hh; rw [hh] at h; exact absurd h (by decide)
    have n4 : ¬ r = escapingRune := by
      intro hh; rw [hh] at h; exact absurd h (by decide)
    unfold eatSymbol
    rw [if_neg n1, if_neg n2, if_neg n3, if_neg n4, if_pos (by simp [h])]
    rcases commit_token ps with hc | hc
    · right; left
      simp only []
      split <;> simpa using hc
    · right; right
      simp only []
      split <;> simpa using hc

theorem eatSymbol_append_iff (r : Char) (ps : ParseState) :
    eatSymbol r ps = (some .symbol, { ps with token := ps.token.push r }) ↔
      (¬ r = openParenRune ∧ ¬ r = closeParenRune ∧ ¬ r = quoteRune ∧
       ¬ r = escapingRune ∧ isSpace r = false) := by
  constructor
  · intro h
    have hsome : (eatSymbol r ps).1 = some .symbol := by rw [h]
    have htok : (eatSymbol r ps).2.token = ps.token.push r := by rw [h]
    have hnot : ¬ (r = openParenRune ∨ r = closeParenRune ∨ r = quoteRune ∨
        r = escapingRune ∨ isSpace r = true) := by
      intro hr
      rcases eatSymbol_token_cases r ps hr with hcase | hcase | hcase
      · rw [hcase] at hsome; exact Option.noConfusion hsome
      · rw [htok] at hcase; exact string_push_ne_empty ps.token r hcase
      · rw [htok] at hcase; exact string_push_ne_self ps.token r hcase
    push_neg at hnot
    obtain ⟨n1, n2, n3, n4, n5⟩ := hnot
    exact ⟨n1, n2, n3, n4, by simpa using n5⟩
  · intro ⟨h1, h2, h3, h4, h5⟩
    exact eatSymbol_default r ps h1 h2 h3 h4 h5

theorem eatAir_stack_le (r : Char) (ps : ParseState)
    (h : ps.stack.length ≤ maxStackDepth) :
    (eatAir r ps).2.stack.length ≤ maxStackDepth := by
  unfold eatAir
  split_ifs <;>
    first
      | simpa [ParseState.error] using h
      | exact push_stack_length_le ps h
      | exact le_trans (pop_stack_length_le ps) h

theorem eatSymbol_stack_le (r : Char) (ps : ParseState)
    (h : ps.stack.length ≤ maxStackDepth) :
    (eatSymbol r ps).2.stack.length ≤ maxStackDepth := by
  have hcommit : ps.commit.stack.length ≤ maxStackDepth := by
    rw [commit_stack_length]; exact h
  unfold eatSymbol
  split_ifs <;>
    first
      | simpa [ParseState.error] using h
      | exact push_stack_length_le ps.commit hcommit
      | exact le_trans (pop_stack_length_le ps.commit) hcommit
      | (simp only []; split <;> simpa [commit_stack_length] using h)

theorem eatString_stack_le (r : Char) (ps : ParseState)
    (h : ps.stack.length ≤ maxStackDepth) :
    (eatString r ps).2.stack.length ≤ maxStackDepth := by
  unfold eatString
  split_ifs <;>
    first
      | (simp only []; split <;> simpa [commit_stack_length] using h)
      | simpa using h

theorem eatStep_stack_le (eater : EaterTag) (r : Char) (ps : ParseState)
    (h : ps.stack.length ≤ maxStackDepth) :
    (eatStep eater r ps).2.stack.length ≤ maxStackDepth := by
  cases eater with
  | air => exact eatAir_stack_le r ps h
  | symbol => exact eatSymbol_stack_le r ps h
  | str => exact eatString_stack_le r ps h
  | comment =>
    show (eatComment r ps).2.stack.length ≤ maxStackDepth
    unfold eatComment
    split_ifs <;> simpa using h

theorem parseLoop_stack_le : ∀ (chars : List Char) (eater : EaterTag)
    (ps : ParseState) (line column : Nat) (psFinal : ParseState),
    parseLoop chars eater ps line column = .ok psFinal →
    ps.stack.length ≤ maxStackDepth → psFinal.stack.length ≤ maxStackDepth
  | [], _, ps, _, _, psFinal, h, hle => by
    simp only [parseLoop, Except.ok.injEq] at h
    rw [← h]; exact hle
  | r :: rest, eater, ps, line, column, psFinal, h, hle => by
    simp only [parseLoop] at h
    cases hstep : (eatStep eater r ps).1 with
    | none => rw [hstep] at h; exact Except.noConfusion h
    | some next =>
      rw [hstep] at h
      exact parseLoop_stack_le rest next (eatStep eater r ps).2 _ _ psFinal h
        (eatStep_stack_le eater r ps hle)

/-! Helper lemmas: the entry point. -/

theorem Parse_ok_of_loop (input : String) (psFinal : ParseState) (hne : ¬ input = "")
    (hloop : parseLoop input.data .air initState 1 0 = .ok psFinal)
    (hlen : psFinal.stack.length ≤ 1) :
    Parse input = .ok psFinal.stack.getLast? := by
  unfold Parse
  rw [if_neg hne, hloop]
  simp only
  rw [if_neg (by omega)]

theorem Parse_missing_of_loop (input : String) (psFinal : ParseState) (hne : ¬ input = "")
    (hloop : parseLoop input.data .air initState 1 0 = .ok psFinal)
    (hlen : 1 < psFinal.stack.length) :
    Parse input = .error (.missingClosers (psFinal.stack.length - 1)) := by
  unfold Parse
  rw [if_neg hne, hloop]
  simp only
  rw [if_pos hlen]

theorem parseLoop_symbol_run : ∀ (chars : List Char) (ps : ParseState) (line column : Nat),
    (∀ c ∈ chars, ¬ c = openParenRune ∧ ¬ c = closeParenRune ∧ ¬ c = quoteRune ∧
       ¬ c = escapingRune ∧ isSpace c = false) →
    ∃ tok, parseLoop chars .symbol ps line column = .ok { ps with token := tok }
  | [], ps, _, _, _ => ⟨ps.token, rfl⟩
  | c :: rest, ps, line, column, h => by
    obtain ⟨hc1, hc2, hc3, hc4, hc5⟩ := h c (by simp)
    have hstep : eatStep .symbol c ps = (some .symbol, { ps with token := ps.token.push c }) :=
      eatSymbol_default c ps hc1 hc2 hc3 hc4 hc5
    obtain ⟨tok, ih⟩ := parseLoop_symbol_run rest { ps with token := ps.token.push c }
      (if c = newLineRune then line + 1 else line)
      (if c = newLineRune then 0 else column + 1)
      (fun d hd => h d (by simp [hd]))
    refine ⟨tok, ?_⟩
    simp only [parseLoop, hstep]
    exact ih

theorem Parse_bare_token (input : String) (hne : ¬ input = "")
    (hall : ∀ c ∈ input.data, ¬ c = openParenRune ∧ ¬ c = closeParenRune ∧
       ¬ c = quoteRune ∧ ¬ c = commentStartRune ∧ ¬ c = keywordStartRune ∧
       ¬ c = escapingRune ∧ isSpace c = false) :
    Parse input = .ok (some (NewNode .ElementNode "")) := by
  cases hdata : input.data with
  | nil =>
    exfalso
    apply hne
    cases input with
    | mk data =>
      simp only [String.data] at hdata
      rw [hdata]
  | cons c rest =>
    obtain ⟨n1, n2, n3, n4, n5, n6, n7⟩ := hall c (by rw [hdata]; simp)
    have hfirst : eatStep .air c initState = (some .symbol,
        { context := .contextContent, token := "".push c, key := "",
          escapingBackslash := false, stack := [NewNode .ElementNode ""] }) := by
      have hd := eatAir_default c initState n1 n2 n3 n4 n5 n6 n7
      simpa [initState] using hd
    obtain ⟨tok, hrun⟩ := parseLoop_symbol_run rest
      { context := .contextContent, token := "".push c, key := "",
        escapingBackslash := false, stack := [NewNode .ElementNode ""] }
      (if c = newLineRune then 1 + 1 else 1) (if c = newLineRune then 0 else 0 + 1)
      (fun d hd => by
        obtain ⟨m1, m2, m3, _, _, m6, m7⟩ := hall d (by rw [hdata]; simp [hd])
        exact ⟨m1, m2, m3, m6, m7⟩)
    have hloop : parseLoop input.data .air initState 1 0 = .ok
        { context := .contextContent, token := tok, key := "",
          escapingBackslash := false, stack := [NewNode .ElementNode ""] } := by
      rw [hdata]
      simp only [parseLoop, hfirst]
      exact hrun
    have hdone := Parse_ok_of_loop input _ hne hloop (by simp)
    simpa using hdone

/-! Helper lemmas: the serializer on tagged elements. -/

theorem render_element_children (tag : String) (attr : List (String × String))
    (c : Node) (cs : List Node) (htag : ¬ tag = "") :
    Node.render (.mk .ElementNode tag attr (c :: cs)) =
      attrsSegment attr ("<" ++ tag) ++ ">" ++ Node.renderList (c :: cs) ++
        "</" ++ tag ++ ">" := by
  simp [Node.render, htag]

theorem render_void (tag : String) (attr : List (String × String)) (htag : ¬ tag = "")
    (hvoid : degenerateTags.contains tag = true) :
    Node.render (.mk .ElementNode tag attr []) =
      attrsSegment attr ("<" ++ tag) ++ "/>" := by
  simp only [Node.render]
  rw [if_neg (by decide : ¬ NodeType.ElementNode = NodeType.TextNode), if_neg htag]
  show (if degenerateTags.contains tag = true then attrsSegment attr ("<" ++ tag) ++ "/>"
        else attrsSegment attr ("<" ++ tag) ++ "></" ++ tag ++ ">") =
    attrsSegment attr ("<" ++ tag) ++ "/>"
  rw [if_pos hvoid]

theorem render_nonvoid (tag : String) (attr : List (String × String)) (htag : ¬ tag = "")
    (hvoid : degenerateTags.contains tag = false) :
    Node.render (.mk .ElementNode tag attr []) =
      attrsSegment attr ("<" ++ tag) ++ "></" ++ tag ++ ">" := by
  simp only [Node.render]
  rw [if_neg (by decide : ¬ NodeType.ElementNode = NodeType.TextNode), if_neg htag]
  show (if degenerateTags.contains tag = true then attrsSegment attr ("<" ++ tag) ++ "/>"
        else attrsSegment attr ("<" ++ tag) ++ "></" ++ tag ++ ">") =
    attrsSegment attr ("<" ++ tag) ++ "></" ++ tag ++ ">"
  rw [if_neg (fun h => by rw [h] at hvoid; exact Bool.noConfusion hvoid)]

/-! The claims. -/

/-- C1: every ordinary (non-escape-pending) character consumed inside a
double-quoted literal is appended to the token through the
HTML-character-escape mapping, while every character appended to a bare
unquoted token — by the accumulating `eatSymbol` or by the token-starting
default branch of `eatAir` — is appended verbatim; the mapping sends `<`, `>`,
`&`, the apostrophe and the double quote to their entities and leaves every
other character unchanged, so HTML-escaped text in the resulting tree can
only originate in quoted literals. -/
theorem C1_quoted_escaped_bare_verbatim :
    (∀ (r : Char) (ps : ParseState), ps.escapingBackslash = false → ¬ r = quoteRune →
        ¬ r = escapingRune →
        eatString r ps = (some .str, { ps with token := ps.token ++ htmlEscapeRune r })) ∧
    (∀ (r : Char) (ps : ParseState), ¬ r = openParenRune → ¬ r = closeParenRune →
        ¬ r = quoteRune → ¬ r = escapingRune → isSpace r = false →
        eatSymbol r ps = (some .symbol, { ps with token := ps.token.push r })) ∧
    (∀ (r : Char) (ps : ParseState), ¬ r = openParenRune → ¬ r = closeParenRune →
        ¬ r = quoteRune → ¬ r = commentStartRune → ¬ r = keywordStartRune →
        ¬ r = escapingRune → isSpace r = false →
        eatAir r ps = (some .symbol,
          { ps with token := ps.token.push r,
                    context := (if ps.context = .contextAfterAttrKey then
                                  contextType.contextAttrValue
                                else contextType.contextContent) })) ∧
    htmlEscapeRune '<' = "&lt;" ∧ htmlEscapeRune '>' = "&gt;" ∧
    htmlEscapeRune '&' = "&amp;" ∧ htmlEscapeRune (Char.ofNat 39) = "&apos;" ∧
    htmlEscapeRune (Char.ofNat 34) = "&quot;" ∧
    (∀ r : Char, ¬ r = '<' → ¬ r = '>' → ¬ r = '&' → ¬ r = Char.ofNat 39 →
        ¬ r = Char.ofNat 34 → htmlEscapeRune r = String.singleton r) :=
  ⟨eatString_ordinary, eatSymbol_default, eatAir_default, rfl, rfl, rfl, rfl, rfl,
   htmlEscapeRune_other⟩

/-- C1 witness: a concrete quoted-literal append and a concrete verbatim bare
append (of `<`, which would have been escaped inside a quoted literal). -/
theorem C1_quoted_escaped_bare_verbatim_witness :
    eatString 'x' initState
      = (some .str, { initState with token := initState.token ++ htmlEscapeRune 'x' }) ∧
    eatSymbol '<' initState
      = (some .symbol, { initState with token := initState.token.push '<' }) :=
  ⟨C1_quoted_escaped_bare_verbatim.1 'x' initState rfl (by decide) (by decide),
   C1_quoted_escaped_bare_verbatim.2.1 '<' initState (by decide) (by decide) (by decide)
     (by decide) (by decide)⟩

/-- C2: inside a double-quoted literal with the escape-pending flag set, the
next character is resolved by the escape table (`f`, `n`, `r`, `t`, `v` give
the control characters U+000C, U+000A, U+000D, U+0009, U+000B) with every
other character — the backslash U+005C and the double quote U+0022
included — passed through the HTML-character-escape mapping, and the result
is appended with the flag cleared. -/
theorem C2_escape_pending_resolution :
    (∀ (r : Char) (ps : ParseState), ps.escapingBackslash = true →
        eatString r ps = (some .str,
          { ps with escapingBackslash := false,
                    token := ps.token ++ backslashUnescapeThenHtmlEscape r })) ∧
    backslashUnescapeThenHtmlEscape 'f' = String.singleton (Char.ofNat 12) ∧
    backslashUnescapeThenHtmlEscape 'n' = String.singleton (Char.ofNat 10) ∧
    backslashUnescapeThenHtmlEscape 'r' = String.singleton (Char.ofNat 13) ∧
    backslashUnescapeThenHtmlEscape 't' = String.singleton (Char.ofNat 9) ∧
    backslashUnescapeThenHtmlEscape 'v' = String.singleton (Char.ofNat 11) ∧
    backslashUnescapeThenHtmlEscape escapingRune = htmlEscapeRune escapingRune ∧
    backslashUnescapeThenHtmlEscape quoteRune = htmlEscapeRune quoteRune ∧
    (∀ r : Char, ¬ r = 'f' → ¬ r = 'n' → ¬ r = 'r' → ¬ r = 't' → ¬ r = 'v' →
        backslashUnescapeThenHtmlEscape r = htmlEscapeRune r) :=
  ⟨eatString_escaped, rfl, rfl, rfl, rfl, rfl, rfl, rfl, backslashUnescape_other⟩

/-- C2 witness: resolving an escaped `n` in a concrete escape-pending state. -/
theorem C2_escape_pending_resolution_witness :
    eatString 'n' { initState with escapingBackslash := true }
      = (some .str, { initState with escapingBackslash := false,
                                     token := initState.token ++ backslashUnescapeThenHtmlEscape 'n' }) :=
  C2_escape_pending_resolution.1 'n' { initState with escapingBackslash := true } rfl

/-- C3: unbalanced parentheses are always rejected with an error and no tree:
a closing paren with only the synthetic root on the stack makes `pop` fail
with "unexpected closing paren", more than one frame left after the whole
input makes `Parse` fail reporting the number of missing closing parens, and
the two canonical unbalanced inputs produce exactly those errors. -/
theorem C3_unbalanced_parens_error :
    (∀ ps : ParseState, ps.stack.length ≤ 1 →
        ps.pop = ps.error "unexpected closing paren") ∧
    (∀ (input : String) (psFinal : ParseState), ¬ input = "" →
        parseLoop input.data .air initState 1 0 = .ok psFinal →
        1 < psFinal.stack.length →
        Parse input = .error (.missingClosers (psFinal.stack.length - 1))) ∧
    Parse "(a(b(c))" = .error (.missingClosers 1) ∧
    Parse "(a(b(c))))" = .error (.runeError ')' 1 10 "unexpected closing paren") :=
  ⟨pop_at_root, Parse_missing_of_loop, rfl, rfl⟩

/-- C3 witness: popping the bare synthetic root fails, and the unclosed input
`(a` fails reporting one missing closing paren. -/
theorem C3_unbalanced_parens_error_witness :
    initState.pop = initState.error "unexpected closing paren" ∧
    Parse "(a" = .error (.missingClosers 1) :=
  ⟨C3_unbalanced_parens_error.1 initState (by decide),
   C3_unbalanced_parens_error.2.1 "(a"
     { context := .contextTag, token := "a", key := "", escapingBackslash := false,
       stack := [NewNode .ElementNode "",
                 Node.mk .ElementNode "" [] [NewNode .ElementNode ""]] }
     (by decide) rfl (by decide)⟩

/-- C4: the serializer emits the attributes of a tagged element in ascending
lexicographic key order — the keys it folds over are sorted and depend only
on the multiset of keys, not on insertion order — and the example from the
spec renders `y` before `z` inside `<b>`. -/
theorem C4_attrs_sorted_lexicographically :
    (∀ attr : List (String × String),
        List.Sorted (fun a b => stringLe a b = true) (sortedAttrKeys attr)) ∧
    (∀ a1 a2 : List (String × String), List.Perm (a1.map Prod.fst) (a2.map Prod.fst) →
        sortedAttrKeys a1 = sortedAttrKeys a2) ∧
    (∀ (tag : String) (attr : List (String × String)) (c : Node) (cs : List Node),
        ¬ tag = "" →
        Node.render (.mk .ElementNode tag attr (c :: cs)) =
          attrsSegment attr ("<" ++ tag) ++ ">" ++ Node.renderList (c :: cs) ++
            "</" ++ tag ++ ">") ∧
    parseThenRender "(a :x 1 (b :z 2 :y 3 (c)))" =
      "<a x=\"1\"><b y=\"3\" z=\"2\"><c></c></b></a>" :=
  ⟨sortedAttrKeys_sorted, fun _ _ h => sortedAttrKeys_perm_eq h,
   render_element_children, rfl⟩

/-- C4 witness: the two insertion orders of the keys `y` and `z` sort the
same, and a concrete tagged element renders through the sorted attribute
segment. -/
theorem C4_attrs_sorted_lexicographically_witness :
    sortedAttrKeys [("z", "2"), ("y", "3")] = sortedAttrKeys [("y", "3"), ("z", "2")] ∧
    Node.render (.mk .ElementNode "b" [("z", "2"), ("y", "3")] [NewNode .TextNode "t"]) =
      attrsSegment [("z", "2"), ("y", "3")] ("<" ++ "b") ++ ">" ++
        Node.renderList [NewNode .TextNode "t"] ++ "</" ++ "b" ++ ">" :=
  ⟨C4_attrs_sorted_lexicographically.2.1 [("z", "2"), ("y", "3")] [("y", "3"), ("z", "2")]
     (by decide),
   C4_attrs_sorted_lexicographically.2.2.1 "b" [("z", "2"), ("y", "3")]
     (NewNode .TextNode "t") [] (by decide)⟩

/-- C5: a childless tagged element closes with `/>` exactly when its tag is
in the fixed void set `{br, hr, link, img, meta}` and with a paired
`></tag>` otherwise — never both — and the two canonical examples render as
the spec states. -/
theorem C5_void_tags_self_close :
    (∀ (tag : String) (attr : List (String × String)), ¬ tag = "" →
        degenerateTags.contains tag = true →
        Node.render (.mk .ElementNode tag attr []) =
          attrsSegment attr ("<" ++ tag) ++ "/>") ∧
    (∀ (tag : String) (attr : List (String × String)), ¬ tag = "" →
        degenerateTags.contains tag = false →
        Node.render (.mk .ElementNode tag attr []) =
          attrsSegment attr ("<" ++ tag) ++ "></" ++ tag ++ ">") ∧
    parseThenRender "(br)" = "<br/>" ∧
    parseThenRender "(a :href foo)" = "<a href=\"foo\"></a>" :=
  ⟨render_void, render_nonvoid, rfl, rfl⟩

/-- C5 witness: a childless `br` self-closes and a childless `a` renders a
paired empty tag. -/
theorem C5_void_tags_self_close_witness :
    Node.render (.mk .ElementNode "br" [] []) = attrsSegment [] ("<" ++ "br") ++ "/>" ∧
    Node.render (.mk .ElementNode "a" [("href", "foo")] []) =
      attrsSegment [("href", "foo")] ("<" ++ "a") ++ "></" ++ "a" ++ ">" :=
  ⟨C5_void_tags_self_close.1 "br" [] (by decide) (by decide),
   C5_void_tags_self_close.2.1 "a" [("href", "foo")] (by decide) (by decide)⟩

/-- C6: `push` fails with "tree too deep" whenever the stack already holds
the 256-entry cap (or more), succeeds below it — appending the fresh element
as the last child of the stack top and pushing it — and every FSM step and
every run of the rune loop preserves the 256-frame bound, so the parse stack
never exceeds 256 frames on any input. -/
theorem C6_depth_cap_enforced :
    (∀ ps : ParseState, maxStackDepth ≤ ps.stack.length →
        ps.push = ps.error "tree too deep") ∧
    (∀ ps : ParseState, ps.stack.length < maxStackDepth →
        ps.push.1 = some .symbol ∧ ps.push.2.stack.length = ps.stack.length + 1 ∧
        ∀ parent rest, ps.stack = parent :: rest →
          ps.push.2.stack =
            NewNode .ElementNode "" :: parent.addChild (NewNode .ElementNode "") :: rest) ∧
    (∀ (eater : EaterTag) (r : Char) (ps : ParseState),
        ps.stack.length ≤ maxStackDepth →
        (eatStep eater r ps).2.stack.length ≤ maxStackDepth) ∧
    (∀ (chars : List Char) (eater : EaterTag) (ps : ParseState) (line column : Nat)
        (psFinal : ParseState), parseLoop chars eater ps line column = .ok psFinal →
        ps.stack.length ≤ maxStackDepth → psFinal.stack.length ≤ maxStackDepth) :=
  ⟨push_at_cap, push_below_cap, eatStep_stack_le, parseLoop_stack_le⟩

/-- C6 witness: a stack at the 256-entry cap makes `push` fail with "tree too
deep", a one-frame stack pushes successfully, a step from the initial state
keeps the bound, and a concrete one-rune run ends within the bound. -/
theorem C6_depth_cap_enforced_witness :
    ({ initState with
        stack := List.replicate maxStackDepth (NewNode .ElementNode "") } : ParseState).push
      = ({ initState with
            stack := List.replicate maxStackDepth (NewNode .ElementNode "") } :
          ParseState).error "tree too deep" ∧
    initState.push.1 = some .symbol ∧
    (eatStep .air '(' initState).2.stack.length ≤ maxStackDepth ∧
    ({ context := .contextContent, token := "a", key := "", escapingBackslash := false,
       stack := [NewNode .ElementNode ""] } : ParseState).stack.length ≤ maxStackDepth :=
  ⟨C6_depth_cap_enforced.1 _ (by simp),
   (C6_depth_cap_enforced.2.1 initState (by decide)).1,
   C6_depth_cap_enforced.2.2.1 .air '(' initState (by decide),
   C6_depth_cap_enforced.2.2.2 ['a'] .air initState 1 0
     { context := .contextContent, token := "a", key := "", escapingBackslash := false,
       stack := [NewNode .ElementNode ""] } rfl (by decide)⟩

/-- C7: parsing the empty input is a degenerate success with no tree and no
error, rendering an absent tree gives the empty string, and their composition
maps the empty input to the empty output. -/
theorem C7_empty_input_degenerate_success :
    Parse "" = .ok none ∧ render none = "" ∧ parseThenRender "" = "" :=
  ⟨rfl, rfl, rfl⟩

/-- C8 counterexample: the input starting a double-quoted string that is
still open when the input ends is parsed successfully (the bare synthetic
root, no error), contradicting the claim that such inputs yield a structural
error. -/
theorem C8_unterminated_string_counterexample :
    Parse "\"xy" = .ok (some (NewNode .ElementNode "")) :=
  rfl

/-- C8 amended: an input that ends inside an open double-quoted literal is
not reported as an error by itself — after the rune loop the only end-of-input
check `Parse` performs is the stack length, so such an input fails only when
closing parens are also missing, and otherwise succeeds with the pending
literal text discarded. -/
theorem C8_amended_no_eof_string_check :
    (∀ (input : String) (psFinal : ParseState), ¬ input = "" →
        parseLoop input.data .air initState 1 0 = .ok psFinal →
        psFinal.stack.length ≤ 1 →
        Parse input = .ok psFinal.stack.getLast?) ∧
    Parse "(a \"xy" = .error (.missingClosers 1) ∧
    parseThenRender "\"xy" = "" :=
  ⟨Parse_ok_of_loop, rfl, rfl⟩

/-- C8 witness: the open-string input `"xy` runs the loop to completion and
succeeds with the root of its final one-frame stack. -/
theorem C8_amended_no_eof_string_check_witness :
    Parse "\"xy" = .ok ([NewNode NodeType.ElementNode ""].getLast?) :=
  C8_amended_no_eof_string_check.1 "\"xy"
    { context := .contextContent, token := "xy", key := "", escapingBackslash := false,
      stack := [NewNode .ElementNode ""] }
    (by decide) rfl (by decide)

/-- C9 counterexample: a semicolon consumed while a bare token is being
accumulated is appended to that token (and `(a b;c)` parses to a text child
`b;c`), contradicting the claim that bare tokens contain no semicolon. -/
theorem C9_semicolon_counterexample :
    eatSymbol ';' { context := .contextContent, token := "b", key := "",
                    escapingBackslash := false, stack := [NewNode .ElementNode ""] }
      = (some .symbol, { context := .contextContent, token := "b;", key := "",
                         escapingBackslash := false, stack := [NewNode .ElementNode ""] }) ∧
    parseThenRender "(a b;c)" = "<a>b;c</a>" :=
  ⟨rfl, rfl⟩

/-- C9 amended: `eatSymbol` appends a character verbatim to the accumulating
bare token exactly when it is not a paren, not a double quote, not a
backslash and not white space — the semicolon satisfies this condition, so
comments start only between tokens and a semicolon inside a bare token
becomes part of it. -/
theorem C9_amended_semicolon_allowed_in_tokens :
    ∀ (r : Char) (ps : ParseState),
      eatSymbol r ps = (some .symbol, { ps with token := ps.token.push r }) ↔
        (¬ r = openParenRune ∧ ¬ r = closeParenRune ∧ ¬ r = quoteRune ∧
         ¬ r = escapingRune ∧ isSpace r = false) :=
  eatSymbol_append_iff

/-- C9 amended witness: the semicolon is appended verbatim in the initial
state. -/
theorem C9_amended_semicolon_allowed_in_tokens_witness :
    eatSymbol ';' initState
      = (some .symbol, { initState with token := initState.token.push ';' }) :=
  (C9_amended_semicolon_allowed_in_tokens ';' initState).mpr (by decide)

/-- C10 counterexample: parsing the single bare token `hello` succeeds but
returns the synthetic root with no children at all — the pending token is
discarded at end of input — so rendering gives the empty string, not the
token text, contradicting the claim. -/
theorem C10_bare_token_counterexample :
    Parse "hello" = .ok (some (NewNode .ElementNode "")) ∧
    ¬ parseThenRender "hello" = "hello" :=
  ⟨rfl, by rw [show parseThenRender "hello" = "" from rfl]; decide⟩

/-- C10 amended: a non-empty input consisting of one bare token (no parens,
quotes, backslashes, semicolons, colons or white space) parses successfully
to the synthetic empty-tagged root with no children, because the token still
pending at end of input is never committed; rendering such a result yields
the empty string. -/
theorem C10_amended_trailing_token_dropped :
    (∀ input : String, ¬ input = "" →
        (∀ c ∈ input.data, ¬ c = openParenRune ∧ ¬ c = closeParenRune ∧
           ¬ c = quoteRune ∧ ¬ c = commentStartRune ∧ ¬ c = keywordStartRune ∧
           ¬ c = escapingRune ∧ isSpace c = false) →
        Parse input = .ok (some (NewNode .ElementNode ""))) ∧
    parseThenRender "hello" = "" :=
  ⟨Parse_bare_token, rfl⟩

/-- C10 amended witness: the bare token `hello` parses to the childless
synthetic root. -/
theorem C10_amended_trailing_token_dropped_witness :
    Parse "hello" = .ok (some (NewNode NodeType.ElementNode "")) :=
  C10_amended_trailing_token_dropped.1 "hello" (by decide) (by decide)

end htl
